import Mathlib

/-!
Verification of the local-llm-cli repository (three Python files:
`index_code.py`, `app.py`, `llm_cli.py`) against its design specification.

The repository implements a retrieval-augmented QA tool: it chunks source
files, embeds them, stores the embeddings in a vector database collection
named after a hash of the project path, and retrieves top-K chunks as
context for a chat model.  This file shallowly embeds the pure data
transformations of that pipeline (path hashing, chunking, batching,
collection lifecycle, indexed-state checks) as executable Lean functions
and proves the claims of the specification about them.

File contents: strings are modelled as `List Char` where character-level
slicing matters, bytes as `Nat` below 256, 32-bit machine words as `Nat`
with explicit reduction modulo `2 ^ 32`.  The vector store is modelled as
an association list from collection names to record lists; exceptions of
the Python code are modelled with `Except`.
-/

namespace LlmCli

/-! ### Chunking (`load_chunks` inner loop, index_code.py lines 50-52)

The Python loop `for i in range(0, len(content), chunk_size):
chunk = content[i:i+chunk_size]` takes successive non-overlapping slices
left to right; it is embedded as repeated take/drop.  For `chunk_size ≥ 1`
the recursive call receives exactly `content[chunk_size:]`
(`(x :: xs).drop C = xs.drop (C - 1)`).  Python raises on step 0, so the
embedding is only meaningful for a positive chunk size. -/
def chunkList (C : Nat) (content : List α) : List (List α) :=
  match content with
  | [] => []
  | x :: xs => (x :: xs).take C :: chunkList C (xs.drop (C - 1))
termination_by content.length
decreasing_by
  simp only [List.length_drop, List.length_cons]
  omega

/-! ### SHA-256 (`hashlib.sha256(path.encode()).hexdigest()`)

`get_hash` (index_code.py line 13) and the two `get_path_hash` functions
(app.py line 14, llm_cli.py line 66) all call the Python `hashlib.sha256`
on the UTF-8 encoding of the path and take the lowercase hex digest.
SHA-256 itself is external library code; it is implemented here in full
(FIPS 180-4) over `Nat` so that the hash functions are executable. -/

def w32 (n : Nat) : Nat := n % 4294967296

def rotWord (x n : Nat) : Nat := w32 ((x >>> n) ||| (x <<< (32 - n)))

def sumU0 (x : Nat) : Nat := (rotWord x 2) ^^^ (rotWord x 13) ^^^ (rotWord x 22)

def sumU1 (x : Nat) : Nat := (rotWord x 6) ^^^ (rotWord x 11) ^^^ (rotWord x 25)

def sigL0 (x : Nat) : Nat := (rotWord x 7) ^^^ (rotWord x 18) ^^^ (x >>> 3)

def sigL1 (x : Nat) : Nat := (rotWord x 17) ^^^ (rotWord x 19) ^^^ (x >>> 10)

def sha256K : List Nat :=
  [1116352408, 1899447441, 3049323471, 3921009573, 961987163,
   1508970993, 2453635748, 2870763221, 3624381080, 310598401,
   607225278, 1426881987, 1925078388, 2162078206, 2614888103,
   3248222580, 3835390401, 4022224774, 264347078, 604807628,
   770255983, 1249150122, 1555081692, 1996064986, 2554220882,
   2821834349, 2952996808, 3210313671, 3336571891, 3584528711,
   113926993, 338241895, 666307205, 773529912, 1294757372,
   1396182291, 1695183700, 1986661051, 2177026350, 2456956037,
   2730485921, 2820302411, 3259730800, 3345764771, 3516065817,
   3600352804, 4094571909, 275423344, 430227734, 506948616,
   659060556, 883997877, 958139571, 1322822218, 1537002063,
   1747873779, 1955562222, 2024104815, 2227730452, 2361852424,
   2428436474, 2756734187, 3204031479, 3329325298]

structure Sha256State where
  a : Nat
  b : Nat
  c : Nat
  d : Nat
  e : Nat
  f : Nat
  g : Nat
  h : Nat
deriving DecidableEq, Repr

def sha256Init : Sha256State :=
  { a := 1779033703, b := 3144134277, c := 1013904242, d := 2773480762,
    e := 1359893119, f := 2600822924, g := 528734635, h := 1541459225 }

def lenBytes64 (L : Nat) : List Nat :=
  [((8 * L) >>> 56) % 256, ((8 * L) >>> 48) % 256, ((8 * L) >>> 40) % 256,
   ((8 * L) >>> 32) % 256, ((8 * L) >>> 24) % 256, ((8 * L) >>> 16) % 256,
   ((8 * L) >>> 8) % 256, (8 * L) % 256]

def sha256Pad (msg : List Nat) : List Nat :=
  msg ++ 0x80 :: List.replicate ((119 - msg.length % 64) % 64) 0
      ++ lenBytes64 msg.length

def bytesToWords : List Nat → List Nat
  | b0 :: b1 :: b2 :: b3 :: rest =>
      (b0 * 16777216 + b1 * 65536 + b2 * 256 + b3) :: bytesToWords rest
  | _ => []

def scheduleStep (w : List Nat) : List Nat :=
  w ++ [w32 (sigL1 (w.getD (w.length - 2) 0) + w.getD (w.length - 7) 0
      + sigL0 (w.getD (w.length - 15) 0) + w.getD (w.length - 16) 0)]

def schedule (block : List Nat) : List Nat :=
  Nat.iterate scheduleStep 48 block

def roundStep (st : Sha256State) (kw : Nat × Nat) : Sha256State :=
  let ch := (st.e &&& st.f) ^^^ ((st.e ^^^ 4294967295) &&& st.g)
  let maj := (st.a &&& st.b) ^^^ (st.a &&& st.c) ^^^ (st.b &&& st.c)
  let t1 := w32 (st.h + sumU1 st.e + ch + kw.1 + kw.2)
  let t2 := w32 (sumU0 st.a + maj)
  { a := w32 (t1 + t2), b := st.a, c := st.b, d := st.c,
    e := w32 (st.d + t1), f := st.e, g := st.f, h := st.g }

def compressBlock (hs : Sha256State) (block : List Nat) : Sha256State :=
  let st := (sha256K.zip (schedule block)).foldl roundStep hs
  { a := w32 (hs.a + st.a), b := w32 (hs.b + st.b), c := w32 (hs.c + st.c),
    d := w32 (hs.d + st.d), e := w32 (hs.e + st.e), f := w32 (hs.f + st.f),
    g := w32 (hs.g + st.g), h := w32 (hs.h + st.h) }

def sha256Words (msg : List Nat) : Sha256State :=
  (chunkList 16 (bytesToWords (sha256Pad msg))).foldl compressBlock sha256Init

def hexDigit (n : Nat) : Char :=
  if n < 10 then Char.ofNat (48 + n) else Char.ofNat (87 + n)

def wordHexChars (w : Nat) : List Char :=
  [hexDigit ((w >>> 28) % 16), hexDigit ((w >>> 24) % 16),
   hexDigit ((w >>> 20) % 16), hexDigit ((w >>> 16) % 16),
   hexDigit ((w >>> 12) % 16), hexDigit ((w >>> 8) % 16),
   hexDigit ((w >>> 4) % 16), hexDigit (w % 16)]

def sha256_hexdigest (msg : List Nat) : String :=
  (([(sha256Words msg).a, (sha256Words msg).b, (sha256Words msg).c,
     (sha256Words msg).d, (sha256Words msg).e, (sha256Words msg).f,
     (sha256Words msg).g, (sha256Words msg).h].flatMap wordHexChars).asString)

def utf8Bytes (s : String) : List Nat :=
  s.toUTF8.toList.map (fun b => b.toNat)

/-! ### Path hashing and collection naming

Three files each define the same hash function and each build the
collection name as `"project_index_" + hash[:10]`:
index_code.py `get_hash` (line 13) and `main` (line 79),
app.py `get_path_hash` (line 14) and `ask_code` (line 26),
llm_cli.py `get_path_hash` (line 66) used at lines 72 and 140. -/

def get_hash (path : String) : String :=
  sha256_hexdigest (utf8Bytes path)

def app_get_path_hash (path : String) : String :=
  sha256_hexdigest (utf8Bytes path)

def cli_get_path_hash (path : String) : String :=
  sha256_hexdigest (utf8Bytes path)

def index_collection_name (path : String) : String :=
  "project_index_" ++ (get_hash path).take 10

def app_collection_name (path : String) : String :=
  "project_index_" ++ (app_get_path_hash path).take 10

def cli_collection_name (path : String) : String :=
  "project_index_" ++ (cli_get_path_hash path).take 10

/-! ### File walking and chunk collection (`load_chunks`, index_code.py lines 32-54)

A walked directory is modelled as the ordered list of files the walk
visits; each file has the name tested by the extension filter and its
decoded text content.  The optional gitignore matcher corresponds to the
`spec` returned by `load_gitignore`: when present, matched files are
skipped (`continue`); then only files whose name ends with one of
`EXTENSIONS` are read and chunked.  The Python `f.endswith(ext)` is the
character-suffix test, embedded as `List.isSuffixOf` on the characters. -/

structure SrcFile where
  name : String
  content : List Char
deriving DecidableEq, Repr

def EXTENSIONS : List String := [".js", ".json", ".md"]

def load_chunks (ignore : Option (String → Bool)) (files : List SrcFile)
    (chunk_size : Nat) : List (List Char) :=
  files.flatMap (fun f =>
    if (match ignore with | some m => m f.name | none => false) then []
    else if EXTENSIONS.any (fun ext => ext.data.isSuffixOf f.name.data) then
      chunkList chunk_size f.content
    else [])

/-! ### Gitignore loading (`load_gitignore`, index_code.py lines 18-24)

`pathspec.PathSpec.from_lines("gitwildmatch", patterns)` is external
library code.  Modelled from the spec: the IgnoreFilter contract of the spec
(§4.2) parses line-oriented git-wildcard patterns and has the failure
mode "malformed ignore file"; pathspec raises `GitWildMatchPatternError`
when a line is not a valid git-wildcard pattern (for example a lone
`"!"`).  The parser is abstracted by a validity predicate `valid` on
lines and a compiled matcher `mtch`; compilation fails exactly when some
line is invalid.  `load_gitignore` and `load_chunks` in the source wrap
the call in no `try`/`except`, so the error propagates. -/

def from_lines (valid : String → Bool) (mtch : String → Bool)
    (patterns : List String) : Except String (String → Bool) :=
  if patterns.all valid then Except.ok mtch
  else Except.error "GitWildMatchPatternError"

def load_gitignore (valid : String → Bool) (mtch : String → Bool)
    (gitignoreLines : Option (List String)) :
    Except String (Option (String → Bool)) :=
  match gitignoreLines with
  | some lines =>
    match from_lines valid mtch lines with
    | Except.ok spec => Except.ok (some spec)
    | Except.error e => Except.error e
  | none => Except.ok none

def load_chunks_run (valid : String → Bool) (mtch : String → Bool)
    (gitignoreLines : Option (List String)) (files : List SrcFile)
    (chunk_size : Nat) : Except String (List (List Char)) :=
  match load_gitignore valid mtch gitignoreLines with
  | Except.error e => Except.error e
  | Except.ok ignore => Except.ok (load_chunks ignore files chunk_size)

/-! ### Batched collection writes (`add_to_collection_in_batches`,
index_code.py lines 57-68)

The Python loop `for i in range(0, total, MAX_BATCH_SIZE)` slices
`documents[i:i+B]` and `embeddings[i:i+B]` and assigns the ids
`f"id_{i+j}"` for `j` below the batch length, then issues one
`collection.add` call per iteration.  The model returns the list of
`collection.add` calls in order; as in `chunkList`, the recursive call
receives exactly `documents[B:]` for `B ≥ 1`. -/

def MAX_BATCH_SIZE : Nat := 500

structure BatchCall (α β : Type) where
  documents : List α
  embeddings : List β
  ids : List String
deriving DecidableEq, Repr

def batchCalls (B : Nat) (i : Nat) (documents : List α)
    (embeddings : List β) : List (BatchCall α β) :=
  match documents with
  | [] => []
  | d :: ds =>
    { documents := (d :: ds).take B,
      embeddings := embeddings.take B,
      ids := (List.range ((d :: ds).take B).length).map
        (fun j => "id_" ++ Nat.repr (i + j)) } ::
      batchCalls B (i + B) (ds.drop (B - 1)) (embeddings.drop B)
termination_by documents.length
decreasing_by
  simp only [List.length_drop, List.length_cons]
  omega

def add_to_collection_in_batches (documents : List α) (embeddings : List β) :
    List (BatchCall α β) :=
  batchCalls MAX_BATCH_SIZE 0 documents embeddings

/-! ### The vector store and the indexing run (`main`, index_code.py
lines 71-98)

The store is an association list from collection names to record lists;
a record is the (id, document, embedding) triple one `collection.add`
entry stores.  `main` deletes any prior collection for the path
(ignoring a failure of the delete), creates it fresh and empty with
`get_or_create_collection`, computes chunks, embeds them, and writes the
batches sequentially.  Failure points of a run are modelled by
`IndexFailure`: the embedding call can raise, or the `k`-th
`collection.add` call can raise — in either case the Python process dies
there, freezing the collection state reached so far. -/

def StoreT (α β : Type) : Type := List (String × List (String × α × β))

def batchRecords (b : BatchCall α β) : List (String × α × β) :=
  b.ids.zip (b.documents.zip b.embeddings)

inductive IndexFailure where
  | ok
  | embedFail
  | writeFail (k : Nat)
deriving DecidableEq, Repr

def writeBatchesUntil (bs : List (BatchCall α β)) (failAt : Option Nat) :
    List (String × α × β) :=
  match failAt with
  | none => (bs.map batchRecords).flatten
  | some k => ((bs.take k).map batchRecords).flatten

def index_main_collection (chunks : List α) (embs : List β)
    (fail : IndexFailure) : Option (List (String × α × β)) :=
  match fail with
  | IndexFailure.embedFail => some []
  | IndexFailure.writeFail k =>
    some (writeBatchesUntil (add_to_collection_in_batches chunks embs) (some k))
  | IndexFailure.ok =>
    some (writeBatchesUntil (add_to_collection_in_batches chunks embs) none)

def delete_collection (store : StoreT α β) (name : String) : StoreT α β :=
  store.filter (fun kv => kv.1 != name)

def index_code_main (store : StoreT α β) (path : String) (chunks : List α)
    (embs : List β) : StoreT α β :=
  (index_collection_name path,
    writeBatchesUntil (add_to_collection_in_batches chunks embs) none) ::
    delete_collection store (index_collection_name path)

/-! ### Indexed-state check and indexer invocation (`is_path_indexed` and
`run_indexer`, llm_cli.py lines 138-159)

`is_path_indexed` wraps both store accesses (`get_collection`, which
raises when the collection is absent, and `collection.get(limit=1)`) in
one `try`/`except Exception` that returns `False`.  The flag `fails`
models an environment in which any store access raises.  `run_indexer`
skips entirely when `force` is false and `is_path_indexed` holds;
otherwise it runs `index_code.py` as a subprocess, modelled as
`index_code_main` over the given chunks and embeddings, and reports
whether indexing was performed. -/

def get_collection_exc (store : StoreT α β) (fails : Bool) (name : String) :
    Except Unit (List (String × α × β)) :=
  if fails then Except.error ()
  else
    match store.lookup name with
    | none => Except.error ()
    | some recs => Except.ok recs

def collection_get_limit1 (fails : Bool) (recs : List (String × α × β)) :
    Except Unit (List String) :=
  if fails then Except.error ()
  else Except.ok ((recs.take 1).map (fun r => r.1))

def is_path_indexed (store : StoreT α β) (fails : Bool) (path : String) :
    Bool :=
  match get_collection_exc store fails (cli_collection_name path) with
  | Except.error _ => false
  | Except.ok recs =>
    match collection_get_limit1 fails recs with
    | Except.error _ => false
    | Except.ok ids => ids.length > 0

def run_indexer (store : StoreT α β) (fails : Bool) (path : String)
    (force : Bool) (chunks : List α) (embs : List β) : StoreT α β × Bool :=
  if force = false ∧ is_path_indexed store fails path = true then
    (store, false)
  else (index_code_main store path chunks embs, true)

/-! ### Retrieval context and the ask endpoint
(`get_context_from_embeddings`, llm_cli.py lines 70-83; `ask_code`,
app.py lines 23-51)

Query embedding and nearest-neighbour search are external collaborators;
they are abstracted as a `retrieve` function from the stored records
to the returned document texts.  `get_context_from_embeddings`
raises `RuntimeError` when `get_collection` raises (collection absent);
`ask_code` returns an error body instead and only calls the chat
transport (`ollama.chat`) on the success path — the Bool of the result
records whether the chat transport was called. -/

def get_context_from_embeddings (store : StoreT α β) (path : String)
    (retrieve : List (String × α × β) → List String) :
    Except String String :=
  match store.lookup (cli_collection_name path) with
  | none => Except.error ("No index found for path: " ++ path)
  | some recs =>
    Except.ok (String.intercalate "\n---\n" (retrieve recs))

inductive AskCodeResult where
  | error (msg : String)
  | response (s : String)
deriving DecidableEq, Repr

def app_prompt (context query : String) : String :=
  "You are an assistant that answers questions about code.\nContext:\n"
    ++ context ++ "\n\nQuestion: " ++ query ++ "\nAnswer:"

def ask_code (store : StoreT α β) (path query : String)
    (retrieve : List (String × α × β) → List String)
    (chat : String → String) : AskCodeResult × Bool :=
  match store.lookup (app_collection_name path) with
  | none =>
    (AskCodeResult.error ("No index found for path: " ++ path
      ++ "Existing collections: "
      ++ String.intercalate ", " (store.map (fun kv => kv.1))), false)
  | some recs =>
    (AskCodeResult.response
      (chat (app_prompt (String.intercalate "\n---\n" (retrieve recs)) query)),
      true)


/-! ## Theorems

Helper lemmas first, then one theorem per specification claim (with a
witness instance for every theorem that carries a hypothesis, and
counterexamples where a claim fails on the code). -/
theorem drop_pred_eq_drop_cons (C : Nat) (hC : 0 < C) (x : α) (xs : List α) :
    xs.drop (C - 1) = (x :: xs).drop C := by
  obtain ⟨c, rfl⟩ : ∃ c, C = c + 1 := ⟨C - 1, by omega⟩
  simp [List.drop_succ_cons]

theorem chunkList_cons_eq (C : Nat) (hC : 0 < C) (x : α) (xs : List α) :
    chunkList C (x :: xs) = (x :: xs).take C :: chunkList C ((x :: xs).drop C) := by
  rw [chunkList, drop_pred_eq_drop_cons C hC]

theorem chunkList_flatten (C : Nat) (hC : 0 < C) (l : List α) :
    (chunkList C l).flatten = l := by
  induction l using chunkList.induct C with
  | case1 => simp [chunkList]
  | case2 x xs ih =>
    rw [chunkList, List.flatten_cons, ih, drop_pred_eq_drop_cons C hC x xs,
      List.take_append_drop]

theorem chunkList_eq_nil_iff (C : Nat) (l : List α) :
    chunkList C l = [] ↔ l = [] := by
  cases l with
  | nil => simp [chunkList]
  | cons x xs => simp [chunkList]

theorem chunkList_length (C : Nat) (hC : 0 < C) (l : List α) :
    (chunkList C l).length = (l.length + C - 1) / C := by
  induction l using chunkList.induct C with
  | case1 =>
    rw [chunkList]
    simp only [List.length_nil]
    rw [Nat.div_eq_of_lt (by omega)]
  | case2 x xs ih =>
    rw [chunkList, List.length_cons, ih, List.length_drop, List.length_cons]
    rcases Nat.lt_or_ge xs.length C with hlt | hge
    · have h1 : (xs.length - (C - 1) + C - 1) / C = 0 :=
        Nat.div_eq_of_lt (by omega)
      have h2 : (xs.length + 1 + C - 1) / C = 1 :=
        Nat.div_eq_of_lt_le (by omega) (by omega)
      rw [h1, h2]
    · have h1 : xs.length - (C - 1) + C - 1 = xs.length := by omega
      have h2 : xs.length + 1 + C - 1 = xs.length + C := by omega
      rw [h1, h2, Nat.add_div_right _ hC]

theorem chunkList_mem (C : Nat) (hC : 0 < C) (l : List α) :
    ∀ ch ∈ chunkList C l, ch ≠ [] ∧ ch.length ≤ C := by
  induction l using chunkList.induct C with
  | case1 => simp [chunkList]
  | case2 x xs ih =>
    rw [chunkList]
    intro ch hch
    rcases List.mem_cons.mp hch with h | h
    · subst h
      constructor
      · obtain ⟨c, rfl⟩ : ∃ c, C = c + 1 := ⟨C - 1, by omega⟩
        simp [List.take_succ_cons]
      · simp [List.length_take]
    · exact ih ch h

theorem chunkList_full (C : Nat) (hC : 0 < C) (l : List α) :
    ∀ i, i + 1 < (chunkList C l).length →
      ((chunkList C l).getD i []).length = C := by
  induction l using chunkList.induct C with
  | case1 => simp [chunkList]
  | case2 x xs ih =>
    rw [chunkList]
    intro i hi
    cases i with
    | zero =>
      simp only [List.length_cons] at hi
      have hne : chunkList C (xs.drop (C - 1)) ≠ [] := by
        intro h
        rw [h] at hi
        simp at hi
      have hdrop : xs.drop (C - 1) ≠ [] :=
        fun h => hne (by rw [h, chunkList])
      have hlen : C ≤ xs.length := by
        by_contra hcon
        exact hdrop (List.drop_eq_nil_of_le (by omega))
      simp only [List.getD_cons_zero, List.length_take, List.length_cons]
      omega
    | succ i =>
      simp only [List.length_cons] at hi
      simp only [List.getD_cons_succ]
      exact ih i (by omega)

theorem wordHexChars_length (w : Nat) : (wordHexChars w).length = 8 := rfl

theorem sha256_hexdigest_length (msg : List Nat) :
    (sha256_hexdigest msg).length = 64 := by
  rw [sha256_hexdigest, List.length_asString]
  simp only [List.flatMap_cons, List.flatMap_nil, List.length_append,
    wordHexChars_length, List.length_nil]

theorem get_hash_length (p : String) : (get_hash p).length = 64 :=
  sha256_hexdigest_length (utf8Bytes p)

theorem string_length_mk (l : List Char) : (String.mk l).length = l.length := rfl

theorem index_collection_name_length (p : String) :
    (index_collection_name p).length = 24 := by
  rw [index_collection_name, String.length_append, String.take_eq]
  simp only [string_length_mk, List.length_take]
  have h := get_hash_length p
  rw [show (get_hash p).length = (get_hash p).data.length from rfl] at h
  rw [h]
  decide

theorem digitChar_injOn :
    ∀ a, a < 10 → ∀ b, b < 10 → Nat.digitChar a = Nat.digitChar b → a = b := by
  decide

theorem toDigitsCore_eq (fuel : Nat) :
    ∀ (n : Nat) (acc : List Char), n < fuel →
      Nat.toDigitsCore 10 fuel n acc
        = (if n = 0 then ['0']
            else (Nat.digits 10 n).reverse.map Nat.digitChar) ++ acc := by
  induction fuel with
  | zero => intro n acc h; omega
  | succ fuel ih =>
    intro n acc h
    rw [Nat.toDigitsCore]
    by_cases h0 : n / 10 = 0
    · have hn10 : n < 10 := by omega
      simp only [h0, if_pos rfl]
      by_cases hz : n = 0
      · subst hz
        simp [Nat.digitChar]
      · rw [if_neg hz, Nat.digits_def' (by norm_num) (Nat.pos_of_ne_zero hz),
          h0, Nat.digits_zero]
        simp [Nat.mod_eq_of_lt hn10]
    · have hge : 10 ≤ n := by
        by_contra hcon
        exact h0 (Nat.div_eq_of_lt (by omega))
      have hfuel : n / 10 < fuel := by
        have h1 : n / 10 < n := Nat.div_lt_self (by omega) (by norm_num)
        omega
      rw [if_neg h0, ih (n / 10) _ hfuel, if_neg h0,
        if_neg (show ¬n = 0 by omega)]
      conv_rhs =>
        rw [Nat.digits_def' (b := 10) (by norm_num) (show 0 < n by omega)]
      simp [List.reverse_cons, List.append_assoc]

theorem nat_repr_eq (n : Nat) :
    Nat.repr n = (if n = 0 then ['0']
      else (Nat.digits 10 n).reverse.map Nat.digitChar).asString := by
  rw [Nat.repr, Nat.toDigits, toDigitsCore_eq (n + 1) n [] (by omega),
    List.append_nil]

theorem map_digitChar_inj :
    ∀ (l1 l2 : List Nat), (∀ d ∈ l1, d < 10) → (∀ d ∈ l2, d < 10) →
      l1.map Nat.digitChar = l2.map Nat.digitChar → l1 = l2 := by
  intro l1
  induction l1 with
  | nil => intro l2 _ _ h; cases l2 <;> simp_all
  | cons d ds ih =>
    intro l2 h1 h2 h
    cases l2 with
    | nil => simp at h
    | cons e es =>
      simp only [List.map_cons, List.cons.injEq] at h
      have hd : d = e := digitChar_injOn d (h1 d (by simp)) e (h2 e (by simp)) h.1
      have hds : ds = es := ih es (fun x hx => h1 x (by simp [hx]))
        (fun x hx => h2 x (by simp [hx])) h.2
      rw [hd, hds]

theorem nat_repr_injective (m n : Nat) (h : Nat.repr m = Nat.repr n) : m = n := by
  rw [nat_repr_eq, nat_repr_eq, List.asString_inj] at h
  by_cases hm : m = 0 <;> by_cases hn : n = 0
  · rw [hm, hn]
  · exfalso
    rw [if_pos hm, if_neg hn] at h
    have hlen := congrArg List.length h
    simp only [List.length_cons, List.length_nil, List.length_map,
      List.length_reverse] at hlen
    obtain ⟨d, hd⟩ := List.length_eq_one.mp hlen.symm
    rw [hd] at h
    simp only [List.reverse_cons, List.reverse_nil, List.nil_append,
      List.map_cons, List.map_nil, List.cons.injEq] at h
    have hd10 : d < 10 := Nat.digits_lt_base (by norm_num) (by rw [hd]; simp)
    have : (0 : Nat) = d := digitChar_injOn 0 (by norm_num) d hd10 (by
      rw [← h.1]; rfl)
    have hofd := Nat.ofDigits_digits 10 n
    rw [hd, ← this] at hofd
    simp [Nat.ofDigits] at hofd
    exact hn hofd.symm
  · exfalso
    rw [if_neg hm, if_pos hn] at h
    have hlen := congrArg List.length h
    simp only [List.length_cons, List.length_nil, List.length_map,
      List.length_reverse] at hlen
    obtain ⟨d, hd⟩ := List.length_eq_one.mp hlen
    rw [hd] at h
    simp only [List.reverse_cons, List.reverse_nil, List.nil_append,
      List.map_cons, List.map_nil, List.cons.injEq] at h
    have hd10 : d < 10 := Nat.digits_lt_base (by norm_num) (by rw [hd]; simp)
    have : d = 0 := digitChar_injOn d hd10 0 (by norm_num) (by
      rw [h.1]; rfl)
    have hofd := Nat.ofDigits_digits 10 m
    rw [hd, this] at hofd
    simp [Nat.ofDigits] at hofd
    exact hm hofd.symm
  · rw [if_neg hm, if_neg hn] at h
    have hrev : (Nat.digits 10 m).reverse = (Nat.digits 10 n).reverse :=
      map_digitChar_inj _ _
        (fun d hd => Nat.digits_lt_base (by norm_num) (List.mem_reverse.mp hd))
        (fun d hd => Nat.digits_lt_base (by norm_num) (List.mem_reverse.mp hd)) h
    have hdig : Nat.digits 10 m = Nat.digits 10 n :=
      List.reverse_injective hrev
    have h1 := Nat.ofDigits_digits 10 m
    have h2 := Nat.ofDigits_digits 10 n
    rw [hdig] at h1
    rw [← h1, h2]

theorem id_string_injective (m n : Nat)
    (h : "id_" ++ Nat.repr m = "id_" ++ Nat.repr n) : m = n := by
  have hd := congrArg String.data h
  simp only [String.data_append] at hd
  have hdata := List.append_cancel_left hd
  exact nat_repr_injective m n (String.ext hdata)

theorem batchCalls_length (B : Nat) (hB : 0 < B) :
    ∀ (i : Nat) (docs : List α) (embs : List β),
      (batchCalls B i docs embs).length = (docs.length + B - 1) / B := by
  intro i docs embs
  induction docs using chunkList.induct B generalizing i embs with
  | case1 =>
    rw [batchCalls]
    simp only [List.length_nil]
    rw [Nat.div_eq_of_lt (by omega)]
  | case2 x xs ih =>
    rw [batchCalls, List.length_cons, ih, List.length_drop, List.length_cons]
    rcases Nat.lt_or_ge xs.length B with hlt | hge
    · have h1 : (xs.length - (B - 1) + B - 1) / B = 0 :=
        Nat.div_eq_of_lt (by omega)
      have h2 : (xs.length + 1 + B - 1) / B = 1 :=
        Nat.div_eq_of_lt_le (by omega) (by omega)
      rw [h1, h2]
    · have h1 : xs.length - (B - 1) + B - 1 = xs.length := by omega
      have h2 : xs.length + 1 + B - 1 = xs.length + B := by omega
      rw [h1, h2, Nat.add_div_right _ hB]

theorem batchCalls_docs_flatten (B : Nat) (hB : 0 < B) :
    ∀ (i : Nat) (docs : List α) (embs : List β),
      ((batchCalls B i docs embs).map (fun b => b.documents)).flatten = docs := by
  intro i docs embs
  induction docs using chunkList.induct B generalizing i embs with
  | case1 => rw [batchCalls]; rfl
  | case2 x xs ih =>
    rw [batchCalls, List.map_cons, List.flatten_cons, ih,
      drop_pred_eq_drop_cons B hB x xs, List.take_append_drop]

theorem batchCalls_ids_flatten (B : Nat) (hB : 0 < B) :
    ∀ (i : Nat) (docs : List α) (embs : List β),
      ((batchCalls B i docs embs).map (fun b => b.ids)).flatten
        = (List.range docs.length).map (fun k => "id_" ++ Nat.repr (i + k)) := by
  intro i docs embs
  induction docs using chunkList.induct B generalizing i embs with
  | case1 => rw [batchCalls]; rfl
  | case2 x xs ih =>
    rw [batchCalls, List.map_cons, List.flatten_cons, ih]
    simp only [List.length_take, List.length_cons, List.length_drop]
    rcases Nat.lt_or_ge xs.length B with hlt | hge
    · have h1 : min B (xs.length + 1) = xs.length + 1 := by omega
      have h2 : xs.length - (B - 1) = 0 := by omega
      rw [h1, h2]
      simp
    · have h1 : min B (xs.length + 1) = B := by omega
      have h2 : xs.length - (B - 1) = xs.length + 1 - B := by omega
      have h3 : xs.length + 1 = B + (xs.length + 1 - B) := by omega
      rw [h1, h2]
      conv_rhs => rw [h3, List.range_add]
      rw [List.map_append, List.map_map]
      congr 1
      apply List.map_congr_left
      intro a _
      simp only [Function.comp_apply]
      rw [Nat.add_assoc]

theorem batchCalls_ids_nodup (B : Nat) (hB : 0 < B) (i : Nat)
    (docs : List α) (embs : List β) :
    (((batchCalls B i docs embs).map (fun b => b.ids)).flatten).Nodup := by
  rw [batchCalls_ids_flatten B hB]
  apply List.Nodup.map
  · intro a b hab
    have := id_string_injective (i + a) (i + b) hab
    omega
  · exact List.nodup_range docs.length

theorem is_path_indexed_spec (store : StoreT α β) (fails : Bool) (path : String) :
    is_path_indexed store fails path = true ↔
      fails = false ∧ ∃ recs, store.lookup (cli_collection_name path) = some recs
        ∧ recs ≠ [] := by
  rw [is_path_indexed]
  cases fails with
  | true => simp [get_collection_exc]
  | false =>
    rw [get_collection_exc]
    simp only [Bool.false_eq_true, if_false]
    cases h : List.lookup (cli_collection_name path) store with
    | none => simp
    | some recs =>
      cases recs with
      | nil => simp [collection_get_limit1]
      | cons r rs => simp [collection_get_limit1]

/-- C1: For every file content and every chunk size `C > 0`, the chunking step of
`load_chunks` partitions the content into exactly `⌈L/C⌉` chunks (`L` the content
length), each chunk nonempty and of size at most `C`, every chunk but the last of
size exactly `C`, and concatenating the chunks in order reconstructs the content
exactly (so the chunks are non-overlapping and left-to-right); in particular a
content whose length is an exact multiple of `C` yields no trailing empty chunk
(no chunk is ever empty) and a zero-length content yields zero chunks. -/
theorem C1_chunk_partition (content : List Char) (C : Nat) (hC : 0 < C) :
    (chunkList C content).length = (content.length + C - 1) / C
    ∧ (chunkList C content).flatten = content
    ∧ (∀ i, i + 1 < (chunkList C content).length →
        ((chunkList C content).getD i []).length = C)
    ∧ (∀ ch ∈ chunkList C content, ch ≠ [] ∧ ch.length ≤ C)
    ∧ chunkList C ([] : List Char) = [] :=
  ⟨chunkList_length C hC content, chunkList_flatten C hC content,
    chunkList_full C hC content, chunkList_mem C hC content, by rw [chunkList]⟩

/-- Witness for C1 at content `['a','b','c']` and chunk size 2. -/
theorem C1_chunk_partition_witness :
    0 < 2
    ∧ ((chunkList 2 ['a', 'b', 'c']).length = (['a', 'b', 'c'].length + 2 - 1) / 2
      ∧ (chunkList 2 ['a', 'b', 'c']).flatten = ['a', 'b', 'c']
      ∧ (∀ i, i + 1 < (chunkList 2 ['a', 'b', 'c']).length →
          ((chunkList 2 ['a', 'b', 'c']).getD i []).length = 2)
      ∧ (∀ ch ∈ chunkList 2 ['a', 'b', 'c'], ch ≠ [] ∧ ch.length ≤ 2)
      ∧ chunkList 2 ([] : List Char) = []) :=
  ⟨by decide, C1_chunk_partition ['a', 'b', 'c'] 2 (by decide)⟩

/-- C2: For every path string, the collection identifier equals the constant
namespace `"project_index_"` concatenated with the first 10 hexadecimal
characters of the SHA-256 hash of the UTF-8 encoding of the path; the mapping is
a pure total function (its result has a fixed length 24 = 14 + 10, and equal
paths always give equal collection ids, with no failure mode). -/
theorem C2_collection_id (p : String) :
    index_collection_name p
      = "project_index_" ++ (sha256_hexdigest (utf8Bytes p)).take 10
    ∧ (index_collection_name p).length = 24
    ∧ ∀ q : String, q = p → index_collection_name q = index_collection_name p :=
  ⟨rfl, index_collection_name_length p, fun _ hq => by rw [hq]⟩

/-- Witness for C2 at the path `"/tmp/proj"`. -/
theorem C2_collection_id_witness :
    index_collection_name "/tmp/proj"
      = "project_index_" ++ (sha256_hexdigest (utf8Bytes "/tmp/proj")).take 10
    ∧ (index_collection_name "/tmp/proj").length = 24
    ∧ ∀ q : String, q = "/tmp/proj" →
        index_collection_name q = index_collection_name "/tmp/proj" :=
  C2_collection_id "/tmp/proj"

/-- C9: The three path-to-collection-name mappings — `get_hash` in index_code.py,
`get_path_hash` in app.py and `get_path_hash` in llm_cli.py, each followed by
prefixing `"project_index_"` to the first 10 hash characters — are extensionally
equal: every path resolves to the same collection name from all three entry
points. -/
theorem C9_collection_name_agreement (p : String) :
    index_collection_name p = app_collection_name p
    ∧ app_collection_name p = cli_collection_name p
    ∧ get_hash p = app_get_path_hash p
    ∧ app_get_path_hash p = cli_get_path_hash p :=
  ⟨rfl, rfl, rfl, rfl⟩

/-- C3: For every sequence of chunks with matching embeddings and the maximum
batch size `MAX_BATCH_SIZE = 500`, the batched write issues exactly `⌈N/500⌉`
`collection.add` calls, the concatenation of the documents of all batches equals the
full chunk sequence (no duplicates, gaps or omissions), the record ids across
the whole run are `id_0 … id_(N-1)` in order, and they are unique across the
run. -/
theorem C3_batching (documents : List String) (embeddings : List (List Int))
    (hlen : embeddings.length = documents.length) :
    (add_to_collection_in_batches documents embeddings).length
      = (documents.length + MAX_BATCH_SIZE - 1) / MAX_BATCH_SIZE
    ∧ ((add_to_collection_in_batches documents embeddings).map
        (fun b => b.documents)).flatten = documents
    ∧ ((add_to_collection_in_batches documents embeddings).map
        (fun b => b.ids)).flatten
      = (List.range documents.length).map (fun k => "id_" ++ Nat.repr k)
    ∧ (((add_to_collection_in_batches documents embeddings).map
        (fun b => b.ids)).flatten).Nodup := by
  refine ⟨batchCalls_length MAX_BATCH_SIZE (by decide) 0 documents embeddings,
    batchCalls_docs_flatten MAX_BATCH_SIZE (by decide) 0 documents embeddings,
    ?_, batchCalls_ids_nodup MAX_BATCH_SIZE (by decide) 0 documents embeddings⟩
  rw [add_to_collection_in_batches,
    batchCalls_ids_flatten MAX_BATCH_SIZE (by decide) 0 documents embeddings]
  simp

/-- Witness for C3 at two documents and two embeddings. -/
theorem C3_batching_witness :
    [[(0 : Int)], [(1 : Int)]].length = ["chunk a", "chunk b"].length
    ∧ ((add_to_collection_in_batches ["chunk a", "chunk b"] [[(0 : Int)], [(1 : Int)]]).length
      = (["chunk a", "chunk b"].length + MAX_BATCH_SIZE - 1) / MAX_BATCH_SIZE
    ∧ ((add_to_collection_in_batches ["chunk a", "chunk b"] [[(0 : Int)], [(1 : Int)]]).map
        (fun b => b.documents)).flatten = ["chunk a", "chunk b"]
    ∧ ((add_to_collection_in_batches ["chunk a", "chunk b"] [[(0 : Int)], [(1 : Int)]]).map
        (fun b => b.ids)).flatten
      = (List.range ["chunk a", "chunk b"].length).map (fun k => "id_" ++ Nat.repr k)
    ∧ (((add_to_collection_in_batches ["chunk a", "chunk b"] [[(0 : Int)], [(1 : Int)]]).map
        (fun b => b.ids)).flatten).Nodup) :=
  ⟨by decide, C3_batching ["chunk a", "chunk b"] [[(0 : Int)], [(1 : Int)]] (by decide)⟩

theorem writeBatchesUntil_pos_ne_nil (B : Nat) (hB : 0 < B) (i k : Nat)
    (hk : 1 ≤ k) (d : α) (ds : List α) (e : β) (es : List β) :
    writeBatchesUntil (batchCalls B i (d :: ds) (e :: es)) (some k) ≠ [] := by
  obtain ⟨c, rfl⟩ : ∃ c, k = c + 1 := ⟨k - 1, by omega⟩
  rw [batchCalls]
  intro hcontra
  have hlen := congrArg List.length hcontra
  simp only [writeBatchesUntil, List.take_succ_cons, List.map_cons,
    List.flatten_cons, List.length_append, batchRecords, List.length_zip,
    List.length_map, List.length_range, List.length_take, List.length_cons,
    List.length_nil] at hlen
  omega

/-- C4 (amended): When an indexing run fails, the collection has already been
created, so it is left present; it is empty when the embedding step fails or
when the very first batch write fails, and otherwise it holds exactly the
records of the batches written before the failing `collection.add` call — in
particular, when at least one batch was written before the failure the
collection is left nonempty (partially populated), not absent or empty. -/
theorem C4_aborted_run_state (chunks : List String) (embs : List (List Int))
    (k : Nat) :
    index_main_collection chunks embs IndexFailure.embedFail = some []
    ∧ index_main_collection chunks embs (IndexFailure.writeFail 0) = some []
    ∧ index_main_collection chunks embs (IndexFailure.writeFail k)
      = some ((((add_to_collection_in_batches chunks embs).take k).map
          batchRecords).flatten)
    ∧ (1 ≤ k → ∀ c cs e es, chunks = c :: cs → embs = e :: es →
        index_main_collection chunks embs (IndexFailure.writeFail k)
          ≠ some []) := by
  refine ⟨rfl, ?_, rfl, ?_⟩
  · rw [index_main_collection, writeBatchesUntil]
    simp
  · intro hk c cs e es hc he hcontra
    rw [index_main_collection, hc, he] at hcontra
    have := writeBatchesUntil_pos_ne_nil MAX_BATCH_SIZE (by decide) 0 k hk
      c cs e es
    rw [add_to_collection_in_batches] at hcontra
    exact this (Option.some.inj hcontra)

/-- Witness for C4 (amended) at one chunk, one embedding and `k = 1`. -/
theorem C4_aborted_run_state_witness :
    index_main_collection ["c"] [[(0 : Int)]] IndexFailure.embedFail = some []
    ∧ index_main_collection ["c"] [[(0 : Int)]] (IndexFailure.writeFail 0)
      = some []
    ∧ index_main_collection ["c"] [[(0 : Int)]] (IndexFailure.writeFail 1)
      = some ((((add_to_collection_in_batches ["c"] [[(0 : Int)]]).take 1).map
          batchRecords).flatten)
    ∧ (1 ≤ 1 → ∀ c cs e es, ["c"] = c :: cs → [[(0 : Int)]] = e :: es →
        index_main_collection ["c"] [[(0 : Int)]] (IndexFailure.writeFail 1)
          ≠ some []) :=
  C4_aborted_run_state ["c"] [[(0 : Int)]] 1

/-- C4 counterexample: a run over 501 chunks (two batches at the maximum batch
size 500) whose second `collection.add` call fails leaves the collection
neither absent nor empty — the 500 records of the first batch are visible. -/
theorem C4_counterexample :
    ¬ (index_main_collection (List.replicate 501 "c")
        (List.replicate 501 ([] : List Int)) (IndexFailure.writeFail 1) = none
      ∨ index_main_collection (List.replicate 501 "c")
        (List.replicate 501 ([] : List Int)) (IndexFailure.writeFail 1)
          = some []) := by
  intro hor
  rcases hor with h | h
  · rw [index_main_collection] at h
    exact Option.noConfusion h
  · rw [index_main_collection, add_to_collection_in_batches,
      show (501 : Nat) = 500 + 1 from rfl, List.replicate_succ,
      List.replicate_succ] at h
    exact writeBatchesUntil_pos_ne_nil MAX_BATCH_SIZE (by decide) 0 1
      (le_refl 1) "c" (List.replicate 500 "c") ([] : List Int)
      (List.replicate 500 ([] : List Int)) (Option.some.inj h)

/-- C5: For every store in which the collection for a path exists and contains
at least one record, invoking the indexer with `force = false` is a no-op: the
existence check `is_path_indexed` (collection exists AND has at least one
record) succeeds, no chunking or re-embedding is performed (the indexer
subprocess does not run), and the store is returned completely untouched. -/
theorem C5_force_false_no_op (store : StoreT α β) (path : String)
    (chunks : List α) (embs : List β)
    (h : ∃ recs, store.lookup (cli_collection_name path) = some recs
      ∧ recs ≠ []) :
    is_path_indexed store false path = true
    ∧ run_indexer store false path false chunks embs = (store, false) := by
  have hidx : is_path_indexed store false path = true :=
    (is_path_indexed_spec store false path).mpr ⟨rfl, h⟩
  refine ⟨hidx, ?_⟩
  rw [run_indexer, if_pos ⟨rfl, hidx⟩]

/-- Witness for C5 at a one-collection store holding one record. -/
theorem C5_force_false_no_op_witness :
    (∃ recs, ([(cli_collection_name "/p", [("id_0", "doc", (0 : Nat))])]
        : StoreT String Nat).lookup (cli_collection_name "/p") = some recs
      ∧ recs ≠ [])
    ∧ (is_path_indexed ([(cli_collection_name "/p",
        [("id_0", "doc", (0 : Nat))])] : StoreT String Nat) false "/p" = true
    ∧ run_indexer ([(cli_collection_name "/p", [("id_0", "doc", (0 : Nat))])]
        : StoreT String Nat) false "/p" false [] []
      = ([(cli_collection_name "/p", [("id_0", "doc", (0 : Nat))])], false)) := by
  have h : ∃ recs, ([(cli_collection_name "/p", [("id_0", "doc", (0 : Nat))])]
      : StoreT String Nat).lookup (cli_collection_name "/p") = some recs
      ∧ recs ≠ [] := by
    refine ⟨[("id_0", "doc", (0 : Nat))], ?_, by simp⟩
    simp [List.lookup]
  exact ⟨h, C5_force_false_no_op _ "/p" [] [] h⟩

/-- C6: For every store in which no collection exists for a path, building the
retrieval context fails with the `NotIndexed` error condition — a structured
error, not a silent success — on both query paths (`RuntimeError` in the CLI
`get_context_from_embeddings`, an error body in `ask_code` of the server), and
the chat transport is not called on that failure path. -/
theorem C6_not_indexed_error (store : StoreT α β) (path query : String)
    (retrieve : List (String × α × β) → List String) (chat : String → String)
    (h : store.lookup (cli_collection_name path) = none) :
    get_context_from_embeddings store path retrieve
      = Except.error ("No index found for path: " ++ path)
    ∧ (ask_code store path query retrieve chat).2 = false
    ∧ (∃ msg, (ask_code store path query retrieve chat).1
        = AskCodeResult.error msg) := by
  have happ : store.lookup (app_collection_name path) = none := h
  have hctx : get_context_from_embeddings store path retrieve
      = Except.error ("No index found for path: " ++ path) := by
    unfold get_context_from_embeddings
    rw [h]
  have hask : ask_code store path query retrieve chat
      = (AskCodeResult.error ("No index found for path: " ++ path
          ++ "Existing collections: "
          ++ String.intercalate ", " (store.map (fun kv => kv.1))), false) := by
    unfold ask_code
    rw [happ]
  exact ⟨hctx, by rw [hask], "No index found for path: " ++ path
    ++ "Existing collections: "
    ++ String.intercalate ", " (store.map (fun kv => kv.1)), by rw [hask]⟩

/-- Witness for C6 at the empty store and path `"/p"`. -/
theorem C6_not_indexed_error_witness :
    ([] : StoreT String Nat).lookup (cli_collection_name "/p") = none
    ∧ (get_context_from_embeddings ([] : StoreT String Nat) "/p"
        (fun _ => []) = Except.error ("No index found for path: " ++ "/p")
    ∧ (ask_code ([] : StoreT String Nat) "/p" "q" (fun _ => [])
        (fun s => s)).2 = false
    ∧ (∃ msg, (ask_code ([] : StoreT String Nat) "/p" "q" (fun _ => [])
        (fun s => s)).1 = AskCodeResult.error msg)) :=
  ⟨rfl, C6_not_indexed_error [] "/p" "q" (fun _ => []) (fun s => s) rfl⟩

/-- C7 counterexample: a directory with exactly one file `a.py` of 1700
characters indexed at chunk size 800 yields 0 chunks, not 3 — `.py` is not
among the tracked `EXTENSIONS = [".js", ".json", ".md"]`, so the file is
filtered out before chunking. -/
theorem load_chunks_single_not_tracked (nm : String) (c : List Char)
    (C : Nat)
    (hnm : (EXTENSIONS.any (fun ext => ext.data.isSuffixOf nm.data)) = false) :
    load_chunks none [⟨nm, c⟩] C = [] := by
  simp only [load_chunks, List.flatMap_cons, List.flatMap_nil,
    List.append_nil, hnm]
  simp

theorem load_chunks_single_tracked (nm : String) (c : List Char) (C : Nat)
    (hnm : (EXTENSIONS.any (fun ext => ext.data.isSuffixOf nm.data)) = true) :
    load_chunks none [⟨nm, c⟩] C = chunkList C c := by
  simp only [load_chunks, List.flatMap_cons, List.flatMap_nil,
    List.append_nil, hnm]
  simp

theorem C7_counterexample :
    (load_chunks none [⟨"a.py", List.replicate 1700 'x'⟩] 800).length = 0
    ∧ (load_chunks none [⟨"a.py", List.replicate 1700 'x'⟩] 800).length ≠ 3 := by
  rw [load_chunks_single_not_tracked "a.py" (List.replicate 1700 'x') 800
    (by decide)]
  exact ⟨rfl, by decide⟩

/-- C7 (amended): For a directory containing exactly one file whose name ends
with a tracked extension, for example `a.js`, with content of 1700 characters,
indexing with chunk size 800 produces 3 chunks of sizes 800, 800 and 100 whose
concatenation is the file content, and the run reports
`chunkCount = len(chunks) = 3`; a file named `a.py` is not in the tracked
extensions and contributes no chunks. -/
theorem C7_end_to_end_chunks (c : List Char) (hc : c.length = 1700) :
    (load_chunks none [⟨"a.js", c⟩] 800).map List.length = [800, 800, 100]
    ∧ (load_chunks none [⟨"a.js", c⟩] 800).flatten = c
    ∧ (load_chunks none [⟨"a.js", c⟩] 800).length = 3
    ∧ load_chunks none [⟨"a.py", c⟩] 800 = [] := by
  have hload : load_chunks none [⟨"a.js", c⟩] 800 = chunkList 800 c :=
    load_chunks_single_tracked "a.js" c 800 (by decide)
  have hlen3 : (chunkList 800 c).length = 3 := by
    rw [chunkList_length 800 (by omega) c, hc]
  obtain ⟨c0, c1, c2, hch⟩ := List.length_eq_three.mp hlen3
  have hfull0 : ((chunkList 800 c).getD 0 []).length = 800 :=
    chunkList_full 800 (by omega) c 0 (by omega)
  have hfull1 : ((chunkList 800 c).getD 1 []).length = 800 :=
    chunkList_full 800 (by omega) c 1 (by omega)
  have hflat : (chunkList 800 c).flatten = c := chunkList_flatten 800 (by omega) c
  rw [hch] at hfull0 hfull1 hflat
  simp only [List.getD_cons_zero, List.getD_cons_succ] at hfull0 hfull1
  have hsum := congrArg List.length hflat
  simp only [List.flatten_cons, List.flatten_nil, List.length_append,
    List.length_nil, hc, hfull0, hfull1] at hsum
  refine ⟨?_, ?_, ?_,
    load_chunks_single_not_tracked "a.py" c 800 (by decide)⟩
  · rw [hload, hch]
    simp only [List.map_cons, List.map_nil, hfull0, hfull1,
      List.cons.injEq, and_true, true_and]
    omega
  · rw [hload, hch]
    exact hflat
  · rw [hload, hlen3]

/-- Witness for C7 (amended) at the content of 1700 repeated characters. -/
theorem C7_end_to_end_chunks_witness :
    (List.replicate 1700 'x').length = 1700
    ∧ ((load_chunks none [⟨"a.js", List.replicate 1700 'x'⟩] 800).map
        List.length = [800, 800, 100]
    ∧ (load_chunks none [⟨"a.js", List.replicate 1700 'x'⟩] 800).flatten
      = List.replicate 1700 'x'
    ∧ (load_chunks none [⟨"a.js", List.replicate 1700 'x'⟩] 800).length = 3
    ∧ load_chunks none [⟨"a.py", List.replicate 1700 'x'⟩] 800 = []) :=
  ⟨by simp only [List.length_replicate], C7_end_to_end_chunks
    (List.replicate 1700 'x') (by simp only [List.length_replicate])⟩

/-- C8: A malformed ignore file crashes the indexing run.  The gitwildmatch
parser raises on an invalid pattern line (here the lone `"!"`, modelled by the
validity predicate), `load_gitignore` and `load_chunks` wrap it in no
exception handler, so chunk collection does not complete and no chunk list is
returned — contradicting the specified fall-back to "no filter or partial
ruleset". -/
theorem C8_malformed_ignore_crashes :
    load_chunks_run (fun l => l != "!") (fun _ => false) (some ["!"])
      [⟨"a.js", ['x']⟩] 800 = Except.error "GitWildMatchPatternError" := rfl

/-- C10: `is_path_indexed` is total and never propagates an exception: it
returns `false` whenever any store access raises or the collection does not
exist, and it returns `true` exactly when store access works, the collection
exists and it contains at least one record. -/
theorem C10_is_path_indexed_total (store : StoreT α β) (fails : Bool)
    (path : String) :
    (is_path_indexed store fails path = true
      ∨ is_path_indexed store fails path = false)
    ∧ (fails = true → is_path_indexed store fails path = false)
    ∧ (store.lookup (cli_collection_name path) = none →
        is_path_indexed store fails path = false)
    ∧ (is_path_indexed store fails path = true ↔
        fails = false ∧ ∃ recs, store.lookup (cli_collection_name path)
          = some recs ∧ recs ≠ []) := by
  refine ⟨?_, ?_, ?_, is_path_indexed_spec store fails path⟩
  · cases is_path_indexed store fails path
    · exact Or.inr rfl
    · exact Or.inl rfl
  · intro hf
    cases hres : is_path_indexed store fails path
    · rfl
    · have := ((is_path_indexed_spec store fails path).mp hres).1
      rw [hf] at this
      exact Bool.noConfusion this
  · intro hnone
    cases hres : is_path_indexed store fails path
    · rfl
    · obtain ⟨-, recs, hr, -⟩ := (is_path_indexed_spec store fails path).mp hres
      rw [hnone] at hr
      exact Option.noConfusion hr

/-- Witness for C10 at the empty store with working store access. -/
theorem C10_is_path_indexed_total_witness :
    (is_path_indexed ([] : StoreT String Nat) false "/p" = true
      ∨ is_path_indexed ([] : StoreT String Nat) false "/p" = false)
    ∧ (false = true → is_path_indexed ([] : StoreT String Nat) false "/p"
        = false)
    ∧ (([] : StoreT String Nat).lookup (cli_collection_name "/p") = none →
        is_path_indexed ([] : StoreT String Nat) false "/p" = false)
    ∧ (is_path_indexed ([] : StoreT String Nat) false "/p" = true ↔
        false = false ∧ ∃ recs, ([] : StoreT String Nat).lookup
          (cli_collection_name "/p") = some recs ∧ recs ≠ []) :=
  C10_is_path_indexed_total [] false "/p"

end LlmCli
